import Mathlib

/-!
Verification of the GEM-Assist autonomous-agent core against its
natural-language specification.

The development shallowly embeds the relevant parts of the TypeScript
source:

* `server/agent/engine.ts` — the orchestration loop (`runAgent`: planning,
  per-task retry loop, reflection, budget checks, final status computation)
  and `resumeUnfinishedGoals`;
* `server/agent/memory.ts` — the memory ledger (`addMemoryEntry` with its
  1000-entry FIFO cap, `getRecentMemory`, `formatMemoryForPrompt`);
* `server/agent/tools.ts` — the `read_file` tool with its
  workspace-containment check (`path.resolve` + `String.startsWith`);
* the queue-based tool sandbox (`tools.ts` of the worker variant) —
  the `apply_patch` operation (edits sorted by descending `startLine`,
  spliced into the line array, single write-back);
* the BullMQ worker (`worker.ts`) — the terminal "done" event mapping.

Calls to the language model are nondeterministic in the source, so the
executor and reflector are modelled as oracles (functions supplied as
parameters); everything else is translated directly from the code.
Timestamps, log entries and persistence side effects that no claim
mentions are not tracked; the `agent_memory.json` file behind the ledger
is modelled by the in-memory entry list it serializes.
-/

namespace GemAssist

/-! ## Core data model (server/agent/types.ts) -/

/-- Type `TaskStatus` from types.ts. -/
inductive TaskStatus where
  | pending
  | running
  | done
  | failed
  | skipped
deriving DecidableEq

/-- Field `AgentState.status` from types.ts. -/
inductive RunStatus where
  | idle
  | planning
  | executing
  | reflecting
  | completed
  | failed
  | paused
deriving DecidableEq

/-- Type `ReflectionResult` from types.ts.  `confidence` is a JS number coming
from unvalidated JSON; an integer model suffices for the claims. -/
structure ReflectionResult where
  success : Bool
  analysis : String
  shouldRetry : Bool
  adjustments : Option String
  confidence : Int
deriving DecidableEq

/-- The per-task state the orchestration loop mutates: `Task.status` and
`Task.result` from types.ts (fields no claim mentions — `id`, timestamps,
the stored `reflection` — are omitted). -/
structure AgentTask where
  description : String
  status : TaskStatus
  result : Option String
deriving DecidableEq

/-- Type `AgentConfig` from types.ts. -/
structure AgentConfig where
  maxSteps : Nat
  maxRetries : Nat
  autonomousMode : Bool
  reflectionEnabled : Bool
deriving DecidableEq

/-! ## Memory ledger (server/agent/memory.ts) -/

/-- Field `MemoryEntry.type` from types.ts / memory.ts. -/
inductive MemoryType where
  | goal
  | task
  | decision
  | result
deriving DecidableEq

/-- Type `MemoryEntry` from memory.ts. -/
structure MemoryEntry where
  id : String
  type : MemoryType
  content : String
  context : Option String
  timestamp : String
  goalId : Option String
deriving DecidableEq

/-- Function `addMemoryEntry` (memory.ts lines 349-370), restricted to its effect on
the journal `memory.entries`: push the new entry, and if the journal now
holds more than 1000 entries keep only the last 1000
(`memory.entries = memory.entries.slice(-1000)`). -/
def addMemoryEntry (entries : List MemoryEntry) (e : MemoryEntry) : List MemoryEntry :=
  let pushed := entries ++ [e]
  if 1000 < pushed.length then pushed.drop (pushed.length - 1000) else pushed

/-- The goal filter inside `getRecentMemory` (memory.ts lines 400-407). -/
def memFilterByGoal (entries : List MemoryEntry) (goalId : Option String) : List MemoryEntry :=
  match goalId with
  | some g => entries.filter (fun e => decide (e.goalId = some g))
  | none => entries

/-- Function `getRecentMemory` (memory.ts lines 400-407): filter by goal when asked,
then return the last `limit` entries (`entries.slice(-limit)`), preserving
their order in the journal. -/
def getRecentMemory (entries : List MemoryEntry) (limit : Nat) (goalId : Option String) :
    List MemoryEntry :=
  let es := memFilterByGoal entries goalId
  es.drop (es.length - limit)

/-- The tag `e.type.toUpperCase()` as used by `formatMemoryForPrompt`. -/
def memoryTypeTag : MemoryType → String
  | MemoryType.goal => "GOAL"
  | MemoryType.task => "TASK"
  | MemoryType.decision => "DECISION"
  | MemoryType.result => "RESULT"

/-- One line of `formatMemoryForPrompt` (memory.ts lines 415-418).
`locale` models `new Date(...).toLocaleString()`. -/
def formatEntry (locale : String → String) (e : MemoryEntry) : String :=
  "[" ++ memoryTypeTag e.type ++ "] " ++ locale e.timestamp ++ ": " ++ e.content ++
    (match e.context with
     | some c => " (Context: " ++ c ++ ")"
     | none => "")

/-- Function `formatMemoryForPrompt` (memory.ts lines 409-419). -/
def formatMemoryForPrompt (locale : String → String) (entries : List MemoryEntry)
    (goalId : Option String) : String :=
  let es := getRecentMemory entries 15 goalId
  if es.isEmpty then "No previous memory available."
  else String.intercalate "\n" (es.map (formatEntry locale))

/-- The spec's reading of the same function: the selected (at most 15)
entries laid out most recent FIRST, i.e. the journal suffix reversed.
This definition follows the specification's words, for comparison with
`formatMemoryForPrompt`, which follows the code. -/
def formatMemoryMostRecentFirst (locale : String → String) (entries : List MemoryEntry)
    (goalId : Option String) : String :=
  let es := (getRecentMemory entries 15 goalId).reverse
  if es.isEmpty then "No previous memory available."
  else String.intercalate "\n" (es.map (formatEntry locale))

/-- Folding `addMemoryEntry` over a batch of appends from an empty journal
keeps exactly the most recent 1000 entries: the journal equals the appended
sequence with its oldest overflow dropped. -/
theorem foldl_addMemoryEntry_eq_drop (es : List MemoryEntry) :
    es.foldl addMemoryEntry [] = es.drop (es.length - 1000) := by
  induction es using List.reverseRecOn with
  | nil => simp
  | append_singleton xs x ih =>
    rw [List.foldl_append, List.foldl_cons, List.foldl_nil, ih]
    simp only [addMemoryEntry, List.length_append, List.length_drop, List.length_cons,
      List.length_nil]
    by_cases hk : xs.length < 1000
    · have h0 : xs.length - 1000 = 0 := by omega
      rw [h0, List.drop_zero, if_neg (by simp; omega)]
      have h1 : xs.length + 1 - 1000 = 0 := by omega
      rw [h1, List.drop_zero]
    · have hge : 1000 ≤ xs.length := by omega
      rw [if_pos (by omega)]
      have h2 : xs.length - (xs.length - 1000) + (0 + 1) - 1000 = 1 := by omega
      rw [h2]
      have h3 : (1 : Nat) ≤ (xs.drop (xs.length - 1000)).length := by
        simp only [List.length_drop]; omega
      rw [List.drop_append_of_le_length h3, List.drop_drop]
      have h4 : xs.length + 1 - 1000 ≤ xs.length := by omega
      rw [List.drop_append_of_le_length h4]
      have h5 : xs.length - 1000 + 1 = xs.length + 1 - 1000 := by omega
      rw [h5]

/-- C7: for every sequence of appends to the memory ledger the journal
never exceeds 1000 entries, and eviction is FIFO: appending 1005 (distinct)
entries to an empty journal leaves exactly the 1000 most recent ones, with
the 5 oldest absent. -/
theorem ledger_cap_and_fifo (es : List MemoryEntry) :
    (es.foldl addMemoryEntry []).length ≤ 1000 ∧
    (es.length = 1005 → es.Nodup →
      es.foldl addMemoryEntry [] = es.drop 5 ∧
      (es.foldl addMemoryEntry []).length = 1000 ∧
      ∀ e ∈ es.take 5, e ∉ es.foldl addMemoryEntry []) := by
  have hb := foldl_addMemoryEntry_eq_drop es
  constructor
  · rw [hb]; simp only [List.length_drop]; omega
  · intro h5 hnd
    have h1 : es.length - 1000 = 5 := by omega
    refine ⟨by rw [hb, h1], by rw [hb, h1]; simp only [List.length_drop]; omega, ?_⟩
    intro e he hmem
    rw [hb, h1] at hmem
    exact (List.disjoint_take_drop hnd (le_refl 5)) he hmem

/-- A supply of pairwise-distinct memory entries, for exercising the
ledger cap on a concrete input. -/
def mkEntryC7 (n : Nat) : MemoryEntry :=
  { id := String.mk (List.replicate n 'a'), type := MemoryType.result, content := "",
    context := none, timestamp := "", goalId := none }

theorem mkEntryC7_injective : Function.Injective mkEntryC7 := by
  intro a b h
  have h2 := congrArg (fun e => e.id.toList.length) h
  simpa [mkEntryC7] using h2

/-- Witness for C7: appending 1005 concrete distinct entries leaves the
journal at 1000 entries, equal to the input with its 5 oldest dropped. -/
theorem ledger_cap_and_fifo_witness :
    ((((List.range 1005).map mkEntryC7).foldl addMemoryEntry []).length ≤ 1000) ∧
    ((List.range 1005).map mkEntryC7).foldl addMemoryEntry []
      = ((List.range 1005).map mkEntryC7).drop 5 := by
  have h := ledger_cap_and_fifo ((List.range 1005).map mkEntryC7)
  refine ⟨h.1, (h.2 ?_ ?_).1⟩
  · simp
  · exact (List.nodup_range 1005).map mkEntryC7_injective

/-- C9 (amended): the recent-memory string handed to the planner covers at
most 15 entries, a suffix of the (goal-filtered) journal — i.e. the most
recent ones in chronological order, most recent LAST — newline-joined via
`formatEntry`'s timestamp-and-type-tag line format. -/
theorem planner_memory_format (locale : String → String) (entries : List MemoryEntry)
    (goalId : Option String) :
    (getRecentMemory entries 15 goalId).length ≤ 15 ∧
    getRecentMemory entries 15 goalId <:+ memFilterByGoal entries goalId ∧
    (getRecentMemory entries 15 goalId ≠ [] →
      formatMemoryForPrompt locale entries goalId
        = String.intercalate "\n" ((getRecentMemory entries 15 goalId).map (formatEntry locale))) := by
  refine ⟨?_, ?_, ?_⟩
  · unfold getRecentMemory
    simp only [List.length_drop]
    omega
  · unfold getRecentMemory
    exact List.drop_suffix _ _
  · intro hne
    unfold formatMemoryForPrompt
    rw [if_neg (by simpa [List.isEmpty_iff] using hne)]

/-- An older journal entry (appended first). -/
def e1C9 : MemoryEntry :=
  { id := "1", type := MemoryType.task, content := "first", context := none,
    timestamp := "t1", goalId := none }

/-- A newer journal entry (appended second). -/
def e2C9 : MemoryEntry :=
  { id := "2", type := MemoryType.task, content := "second", context := none,
    timestamp := "t2", goalId := none }

/-- Counterexample for C9 as stated: with two journal entries the prompt
string produced by the code lists the OLDER entry first (most recent last),
differing from the spec-side most-recent-first layout. -/
theorem planner_memory_order_counterexample :
    formatMemoryForPrompt (fun t => t) [e1C9, e2C9] none
      = "[TASK] t1: first\n[TASK] t2: second" ∧
    formatMemoryMostRecentFirst (fun t => t) [e1C9, e2C9] none
      = "[TASK] t2: second\n[TASK] t1: first" ∧
    formatMemoryForPrompt (fun t => t) [e1C9, e2C9] none
      ≠ formatMemoryMostRecentFirst (fun t => t) [e1C9, e2C9] none := by
  refine ⟨by decide, by decide, by decide⟩

/-- Witness for C9's amended statement at a concrete two-entry journal. -/
theorem planner_memory_format_witness :
    (getRecentMemory [e1C9, e2C9] 15 none).length ≤ 15 ∧
    formatMemoryForPrompt (fun t => t) [e1C9, e2C9] none
      = String.intercalate "\n"
          ((getRecentMemory [e1C9, e2C9] 15 none).map (formatEntry (fun t => t))) :=
  ⟨(planner_memory_format (fun t => t) [e1C9, e2C9] none).1,
   (planner_memory_format (fun t => t) [e1C9, e2C9] none).2.2 (by decide)⟩

/-! ## Reflector (engine.ts `reflectOnTask`, lines 148-199) -/

/-- The default verdict returned when no JSON verdict can be parsed from
the reflection response (engine.ts lines 193-198). -/
def defaultReflection : ReflectionResult :=
  { success := true, analysis := "Reflection parsing failed, assuming success",
    shouldRetry := false, adjustments := none, confidence := 50 }

/-- Index of the last occurrence of `c` in `cs`. -/
def lastIdxOf (c : Char) (cs : List Char) : Option Nat :=
  (cs.reverse.findIdx? (fun x => x = c)).map (fun k => cs.length - 1 - k)

/-- The greedy brace extraction `response.match(/\x7b[\s\S]*\x7d/)` of
engine.ts line 178: the match, when it exists, runs from the first opening
brace to the last closing brace (the closing brace must come after the
opening one). -/
def extractBraced (s : String) : Option String :=
  let cs := s.toList
  match cs.findIdx? (fun x => x = Char.ofNat 123), lastIdxOf (Char.ofNat 125) cs with
  | some i, some j =>
      if i < j then some (String.mk ((cs.drop i).take (j - i + 1))) else none
  | some _, none => none
  | none, _ => none

/-- Function `reflectOnTask` (engine.ts lines 148-199) after the LLM call: extract
the first braced block from the response and JSON-parse it; any failure
falls back to `defaultReflection`.  `parseJson` models `JSON.parse`
(returning `none` where the source would throw or the cast would not yield
a verdict); the response string is the oracle's output. -/
def reflectOnTask (parseJson : String → Option ReflectionResult) (response : String) :
    ReflectionResult :=
  match extractBraced response with
  | some block =>
      match parseJson block with
      | some verdict => verdict
      | none => defaultReflection
  | none => defaultReflection

/-! ## Orchestration loop (engine.ts `runAgent`, lines 244-364)

The two LLM-driven calls inside the retry loop are oracles:
`execO retries` models the `executeTaskWithTools` call on attempt number
`retries` (`Except.error msg` when it throws), and `reflO retries` models
the `reflectOnTask` call (`Except.error msg` when the gateway call inside
it throws).  `fuel` is `cfg.maxRetries + 1 - retries`, the number of
remaining iterations the `while (retries <= maxRetries)` loop can run; the
loop is entered with `retries = 0`, so `fuel = cfg.maxRetries + 1 ≥ 1` and
the fuel-exhausted branch (which reports the never-entered loop's
`running` status) is unreachable from `runTask`. -/

/-- One task's retry loop (engine.ts lines 264-322), returning the task
status assigned on exit, the final value of the local `result` variable,
and the updated `stepsExecuted`.  Line 319's transient
`task.result = "Failed after ..."` is not tracked because line 324
(`task.result = result`) unconditionally overwrites it. -/
def runTaskLoop (cfg : AgentConfig) (execO : Nat → Except String String)
    (reflO : Nat → Except String ReflectionResult) :
    Nat → Nat → String → Nat → TaskStatus × String × Nat
  | 0, _, resultVar, steps => (TaskStatus.running, resultVar, steps)
  | fuel + 1, retries, resultVar, steps =>
    match execO retries with
    | Except.error _ =>
        if retries + 1 > cfg.maxRetries then (TaskStatus.failed, resultVar, steps)
        else runTaskLoop cfg execO reflO fuel (retries + 1) resultVar steps
    | Except.ok res =>
        if cfg.reflectionEnabled then
          match reflO retries with
          | Except.error _ =>
              if retries + 1 > cfg.maxRetries then (TaskStatus.failed, res, steps + 1)
              else runTaskLoop cfg execO reflO fuel (retries + 1) res (steps + 1)
          | Except.ok verdict =>
              if verdict.shouldRetry ∧ retries < cfg.maxRetries then
                runTaskLoop cfg execO reflO fuel (retries + 1) res (steps + 1)
              else
                ((if verdict.success then TaskStatus.done else TaskStatus.failed),
                  res, steps + 1)
        else (TaskStatus.done, res, steps + 1)

/-- The retry loop as entered by `runAgent`: `retries = 0`,
`result = ""`. -/
def runTask (cfg : AgentConfig) (execO : Nat → Except String String)
    (reflO : Nat → Except String ReflectionResult) (steps : Nat) :
    TaskStatus × String × Nat :=
  runTaskLoop cfg execO reflO (cfg.maxRetries + 1) 0 "" steps

/-- The `for` loop over tasks (engine.ts lines 244-343).  `execO i` /
`reflO i` are the oracles for task index `i` (0-based).  Returns the
run-level status assigned by a `break` (budget pause or non-autonomous
failure halt), the final task list, and the final `stepsExecuted`. -/
def runTasksLoop (cfg : AgentConfig) (execO : Nat → Nat → Except String String)
    (reflO : Nat → Nat → Except String ReflectionResult) :
    Nat → List AgentTask → Nat → Option RunStatus × List AgentTask × Nat
  | _, [], steps => (none, [], steps)
  | i, t :: rest, steps =>
    if cfg.maxSteps ≤ steps then (some RunStatus.paused, t :: rest, steps)
    else
      let r := runTask cfg (execO i) (reflO i) steps
      let t' : AgentTask := { t with status := r.1, result := some r.2.1 }
      if r.1 = TaskStatus.failed ∧ cfg.autonomousMode = false then
        (some RunStatus.failed, t' :: rest, r.2.2)
      else
        let rec' := runTasksLoop cfg execO reflO (i + 1) rest r.2.2
        (rec'.1, t' :: rec'.2.1, rec'.2.2)

/-- The final run state visible to callers: status, tasks and the step
counter. -/
structure RunResult where
  status : RunStatus
  tasks : List AgentTask
  stepsExecuted : Nat
deriving DecidableEq

/-- Function `runAgent` (engine.ts lines 201-365) after planning: run the task
loop from the planner's task list with `stepsExecuted = 0`, then compute
the final status (lines 345-356): `completed` when every task is `done`,
else `failed` when any task is `failed`, else whatever status the loop
left behind (`paused` from the budget break; the `executing` fallback is
unreachable because a fully processed task list is all `done`/`failed`). -/
def runAgentModel (cfg : AgentConfig) (tasks0 : List AgentTask)
    (execO : Nat → Nat → Except String String)
    (reflO : Nat → Nat → Except String ReflectionResult) : RunResult :=
  let r := runTasksLoop cfg execO reflO 0 tasks0 0
  let allDone := r.2.1.all (fun t => decide (t.status = TaskStatus.done))
  let anyFailed := r.2.1.any (fun t => decide (t.status = TaskStatus.failed))
  { status :=
      if allDone then RunStatus.completed
      else if anyFailed then RunStatus.failed
      else r.1.getD RunStatus.executing,
    tasks := r.2.1,
    stepsExecuted := r.2.2 }

/-! ## Loop lemmas -/

/-- Each iteration of the retry loop increments `stepsExecuted` at most
once, so a task adds at most `fuel` steps. -/
theorem runTaskLoop_steps_le (cfg : AgentConfig) (execO : Nat → Except String String)
    (reflO : Nat → Except String ReflectionResult) :
    ∀ fuel retries res steps,
      (runTaskLoop cfg execO reflO fuel retries res steps).2.2 ≤ steps + fuel := by
  intro fuel
  induction fuel with
  | zero => intro retries res steps; simp [runTaskLoop]
  | succ n ih =>
    intro retries res steps
    simp only [runTaskLoop]
    split
    · split
      · simp
      · exact le_trans (ih _ _ _) (by omega)
    · split
      · split
        · split
          · simp
          · exact le_trans (ih _ _ _) (by omega)
        · split
          · exact le_trans (ih _ _ _) (by omega)
          · simp
      · simp

/-- The retry loop, entered with positive fuel covering the remaining
retry budget (`maxRetries < retries + fuel`, as is the case for the
initial call with `retries = 0` and `fuel = maxRetries + 1`), always exits
through one of the two terminal assignments: the task ends `done` or
`failed`. -/
theorem runTaskLoop_terminal (cfg : AgentConfig) (execO : Nat → Except String String)
    (reflO : Nat → Except String ReflectionResult) :
    ∀ fuel retries res steps, 1 ≤ fuel → cfg.maxRetries + 1 ≤ retries + fuel →
      (runTaskLoop cfg execO reflO fuel retries res steps).1 = TaskStatus.done ∨
      (runTaskLoop cfg execO reflO fuel retries res steps).1 = TaskStatus.failed := by
  intro fuel
  induction fuel with
  | zero => intro retries res steps h1; omega
  | succ n ih =>
    intro retries res steps h1 h2
    simp only [runTaskLoop]
    split
    · split
      · simp
      · exact ih _ _ _ (by omega) (by omega)
    · split
      · split
        · split
          · simp
          · exact ih _ _ _ (by omega) (by omega)
        · split
          · exact ih _ _ _ (by omega) (by omega)
          · dsimp only
            split
            · left; rfl
            · right; rfl
      · simp

/-- A single `runTask` call ends `done` or `failed`. -/
theorem runTask_terminal (cfg : AgentConfig) (execO : Nat → Except String String)
    (reflO : Nat → Except String ReflectionResult) (steps : Nat) :
    (runTask cfg execO reflO steps).1 = TaskStatus.done ∨
    (runTask cfg execO reflO steps).1 = TaskStatus.failed :=
  runTaskLoop_terminal cfg execO reflO (cfg.maxRetries + 1) 0 "" steps (by omega) (by omega)

/-- The loop over tasks keeps `stepsExecuted` below
`maxSteps + maxRetries`: a task only starts while `stepsExecuted <
maxSteps` and can add at most `maxRetries + 1` steps before the budget is
checked again. -/
theorem runTasksLoop_steps_le (cfg : AgentConfig)
    (execO : Nat → Nat → Except String String)
    (reflO : Nat → Nat → Except String ReflectionResult) :
    ∀ tasks i steps, steps ≤ cfg.maxSteps + cfg.maxRetries →
      (runTasksLoop cfg execO reflO i tasks steps).2.2 ≤ cfg.maxSteps + cfg.maxRetries := by
  intro tasks
  induction tasks with
  | nil => intro i steps h; simpa [runTasksLoop] using h
  | cons t rest ih =>
    intro i steps h
    simp only [runTasksLoop]
    split
    · simpa using h
    · have hstep : steps < cfg.maxSteps := by omega
      have hr : (runTask cfg (execO i) (reflO i) steps).2.2
          ≤ steps + (cfg.maxRetries + 1) :=
        runTaskLoop_steps_le cfg (execO i) (reflO i) (cfg.maxRetries + 1) 0 "" steps
      split
      · simp only []
        omega
      · exact ih (i + 1) _ (by omega)

/-! ## C1 — step budget at `paused` -/

/-- Counterexample for C1 as stated: with `maxSteps = 1`, `maxRetries = 1`
and a reflection verdict that always asks for a retry, the first task
consumes 2 steps (one per attempt, with no budget check inside the retry
loop), so the run pauses at the second task with
`stepsExecuted = 2 > maxSteps = 1`. -/
theorem step_budget_paused_counterexample :
    (runAgentModel ⟨1, 1, false, true⟩
        [⟨"a", TaskStatus.pending, none⟩, ⟨"b", TaskStatus.pending, none⟩]
        (fun _ _ => Except.ok "r")
        (fun _ _ => Except.ok ⟨true, "ok", true, none, 90⟩)).status = RunStatus.paused ∧
    (runAgentModel ⟨1, 1, false, true⟩
        [⟨"a", TaskStatus.pending, none⟩, ⟨"b", TaskStatus.pending, none⟩]
        (fun _ _ => Except.ok "r")
        (fun _ _ => Except.ok ⟨true, "ok", true, none, 90⟩)).stepsExecuted = 2 ∧
    ¬ ((runAgentModel ⟨1, 1, false, true⟩
        [⟨"a", TaskStatus.pending, none⟩, ⟨"b", TaskStatus.pending, none⟩]
        (fun _ _ => Except.ok "r")
        (fun _ _ => Except.ok ⟨true, "ok", true, none, 90⟩)).stepsExecuted
      ≤ (1 : Nat)) := by
  refine ⟨by decide, by decide, by decide⟩

/-- C1 (amended): whenever the run ends `paused` (budget exhaustion), the
step counter is bounded by `maxSteps + maxRetries` — reflection-driven
retries inside one task can overshoot the `maxSteps` budget by up to
`maxRetries` steps before the budget is re-checked, so `stepsExecuted ≤
maxSteps` itself does not hold. -/
theorem step_budget_paused_bound (cfg : AgentConfig) (tasks0 : List AgentTask)
    (execO : Nat → Nat → Except String String)
    (reflO : Nat → Nat → Except String ReflectionResult)
    (hpaused : (runAgentModel cfg tasks0 execO reflO).status = RunStatus.paused) :
    (runAgentModel cfg tasks0 execO reflO).stepsExecuted
      ≤ cfg.maxSteps + cfg.maxRetries := by
  have h := runTasksLoop_steps_le cfg execO reflO tasks0 0 0 (by omega)
  simpa [runAgentModel] using h

/-- Witness for C1's amended bound at the counterexample's concrete run
(which does end `paused`). -/
theorem step_budget_paused_bound_witness :
    (runAgentModel ⟨1, 1, false, true⟩
        [⟨"a", TaskStatus.pending, none⟩, ⟨"b", TaskStatus.pending, none⟩]
        (fun _ _ => Except.ok "r")
        (fun _ _ => Except.ok ⟨true, "ok", true, none, 90⟩)).stepsExecuted
      ≤ (1 : Nat) + 1 :=
  step_budget_paused_bound ⟨1, 1, false, true⟩
    [⟨"a", TaskStatus.pending, none⟩, ⟨"b", TaskStatus.pending, none⟩]
    (fun _ _ => Except.ok "r")
    (fun _ _ => Except.ok ⟨true, "ok", true, none, 90⟩)
    (by decide)

/-! ## C3 — non-autonomous halt on first failure -/

/-- Structure of the task list produced by the loop when
`autonomousMode = false` and every task starts `pending`: around any task
that ended `failed`, all earlier tasks ended `done` and all later tasks
are still `pending`. -/
theorem runTasksLoop_nonautonomous_failed (cfg : AgentConfig)
    (hauto : cfg.autonomousMode = false)
    (execO : Nat → Nat → Except String String)
    (reflO : Nat → Nat → Except String ReflectionResult) :
    ∀ tasks i steps, (∀ t ∈ tasks, t.status = TaskStatus.pending) →
      ∀ j u, (runTasksLoop cfg execO reflO i tasks steps).2.1.get? j = some u →
        u.status = TaskStatus.failed →
        (∀ k v, k < j →
          (runTasksLoop cfg execO reflO i tasks steps).2.1.get? k = some v →
          v.status = TaskStatus.done) ∧
        (∀ k v, j < k →
          (runTasksLoop cfg execO reflO i tasks steps).2.1.get? k = some v →
          v.status = TaskStatus.pending) := by
  intro tasks
  induction tasks with
  | nil =>
    intro i steps _ j u hj _
    simp [runTasksLoop] at hj
  | cons t rest ih =>
    intro i steps hpend j u hj hu
    simp only [runTasksLoop] at hj ⊢
    by_cases hpause : cfg.maxSteps ≤ steps
    · rw [if_pos hpause] at hj ⊢
      have humem : u ∈ t :: rest := List.get?_mem hj
      rw [hpend u humem] at hu
      exact absurd hu (by decide)
    · rw [if_neg hpause] at hj ⊢
      by_cases hfail :
          (runTask cfg (execO i) (reflO i) steps).1 = TaskStatus.failed ∧
          cfg.autonomousMode = false
      · rw [if_pos hfail] at hj ⊢
        dsimp only at hj ⊢
        cases j with
        | zero =>
          refine ⟨fun k v hk _ => absurd hk (by omega), ?_⟩
          intro k v hk hkv
          cases k with
          | zero => exact absurd hk (by omega)
          | succ kk =>
            rw [List.get?_cons_succ] at hkv
            exact hpend v (List.mem_cons_of_mem _ (List.get?_mem hkv))
        | succ jj =>
          rw [List.get?_cons_succ] at hj
          rw [hpend u (List.mem_cons_of_mem _ (List.get?_mem hj))] at hu
          exact absurd hu (by decide)
      · rw [if_neg hfail] at hj ⊢
        dsimp only at hj ⊢
        have hdone : (runTask cfg (execO i) (reflO i) steps).1 = TaskStatus.done := by
          rcases runTask_terminal cfg (execO i) (reflO i) steps with h | h
          · exact h
          · exact absurd ⟨h, hauto⟩ hfail
        have hpend2 : ∀ t2 ∈ rest, t2.status = TaskStatus.pending :=
          fun t2 ht2 => hpend t2 (List.mem_cons_of_mem _ ht2)
        cases j with
        | zero =>
          rw [List.get?_cons_zero] at hj
          have he := Option.some.inj hj
          rw [← he, hdone] at hu
          simp at hu
        | succ jj =>
          rw [List.get?_cons_succ] at hj
          have hrec := ih (i + 1) (runTask cfg (execO i) (reflO i) steps).2.2
            hpend2 jj u hj hu
          constructor
          · intro k v hk hkv
            cases k with
            | zero =>
              rw [List.get?_cons_zero] at hkv
              have he := Option.some.inj hkv
              rw [← he]
              exact hdone
            | succ kk =>
              rw [List.get?_cons_succ] at hkv
              exact hrec.1 kk v (by omega) hkv
          · intro k v hk hkv
            cases k with
            | zero => exact absurd hk (by omega)
            | succ kk =>
              rw [List.get?_cons_succ] at hkv
              exact hrec.2 kk v (by omega) hkv

/-- C3: in a non-autonomous run whose tasks all start `pending`, if some
task ends `failed` then the run's final status is `failed`, every earlier
task ended `done`, and every later task is still `pending` (the loop
stopped at the failed task). -/
theorem nonautonomous_halt (cfg : AgentConfig) (hauto : cfg.autonomousMode = false)
    (tasks0 : List AgentTask) (hpend : ∀ t ∈ tasks0, t.status = TaskStatus.pending)
    (execO : Nat → Nat → Except String String)
    (reflO : Nat → Nat → Except String ReflectionResult)
    (j : Nat) (u : AgentTask)
    (hj : (runAgentModel cfg tasks0 execO reflO).tasks.get? j = some u)
    (hu : u.status = TaskStatus.failed) :
    (runAgentModel cfg tasks0 execO reflO).status = RunStatus.failed ∧
    (∀ k v, k < j →
      (runAgentModel cfg tasks0 execO reflO).tasks.get? k = some v →
      v.status = TaskStatus.done) ∧
    (∀ k v, j < k →
      (runAgentModel cfg tasks0 execO reflO).tasks.get? k = some v →
      v.status = TaskStatus.pending) := by
  have hstruct := runTasksLoop_nonautonomous_failed cfg hauto execO reflO
    tasks0 0 0 hpend j u hj hu
  refine ⟨?_, hstruct.1, hstruct.2⟩
  have hmem : u ∈ (runTasksLoop cfg execO reflO 0 tasks0 0).2.1 := List.get?_mem hj
  have hall : ((runTasksLoop cfg execO reflO 0 tasks0 0).2.1.all
      (fun t => decide (t.status = TaskStatus.done))) = false := by
    rw [Bool.eq_false_iff]
    intro hc
    have := List.all_eq_true.mp hc u hmem
    rw [hu] at this
    exact absurd (of_decide_eq_true this) (by decide)
  have hany : ((runTasksLoop cfg execO reflO 0 tasks0 0).2.1.any
      (fun t => decide (t.status = TaskStatus.failed))) = true :=
    List.any_eq_true.mpr ⟨u, hmem, by rw [hu]; decide⟩
  show (if _ then _ else _) = RunStatus.failed
  rw [hall]
  rw [hany]
  rfl

/-- Witness for C3: three tasks, the reflection verdict fails task index 1
— the final state is `failed` / `done`, `failed`, `pending`. -/
theorem nonautonomous_halt_witness :
    (runAgentModel ⟨50, 3, false, true⟩
        [⟨"t1", TaskStatus.pending, none⟩, ⟨"t2", TaskStatus.pending, none⟩,
         ⟨"t3", TaskStatus.pending, none⟩]
        (fun _ _ => Except.ok "r")
        (fun i _ => Except.ok ⟨decide (i ≠ 1), "a", false, none, 90⟩)).status
      = RunStatus.failed ∧
    ((runAgentModel ⟨50, 3, false, true⟩
        [⟨"t1", TaskStatus.pending, none⟩, ⟨"t2", TaskStatus.pending, none⟩,
         ⟨"t3", TaskStatus.pending, none⟩]
        (fun _ _ => Except.ok "r")
        (fun i _ => Except.ok ⟨decide (i ≠ 1), "a", false, none, 90⟩)).tasks.get? 0).map
      (fun t => t.status) = some TaskStatus.done ∧
    ((runAgentModel ⟨50, 3, false, true⟩
        [⟨"t1", TaskStatus.pending, none⟩, ⟨"t2", TaskStatus.pending, none⟩,
         ⟨"t3", TaskStatus.pending, none⟩]
        (fun _ _ => Except.ok "r")
        (fun i _ => Except.ok ⟨decide (i ≠ 1), "a", false, none, 90⟩)).tasks.get? 2).map
      (fun t => t.status) = some TaskStatus.pending :=
  ⟨(nonautonomous_halt ⟨50, 3, false, true⟩ rfl
      [⟨"t1", TaskStatus.pending, none⟩, ⟨"t2", TaskStatus.pending, none⟩,
       ⟨"t3", TaskStatus.pending, none⟩]
      (by decide)
      (fun _ _ => Except.ok "r")
      (fun i _ => Except.ok ⟨decide (i ≠ 1), "a", false, none, 90⟩)
      1 ⟨"t2", TaskStatus.failed, some "r"⟩ (by decide) rfl).1,
   by decide, by decide⟩

/-! ## C5 — executor throwing on every attempt -/

/-- C5 at the failing input: one task, `maxRetries = 3`, the executor
throws "boom" on all four attempts.  The task ends `failed`, but its
`result` field in the final run state is the empty string — engine.ts line
324 (`task.result = result`) overwrites the summary error string that line
319 assigned, and the local `result` was never set because every attempt
threw.  The claimed summary error string is therefore absent from the
final state. -/
theorem executor_throw_result_lost :
    (runAgentModel ⟨50, 3, false, true⟩ [⟨"t", TaskStatus.pending, none⟩]
        (fun _ _ => Except.error "boom")
        (fun _ _ => Except.ok defaultReflection)).tasks
      = [⟨"t", TaskStatus.failed, some ""⟩] ∧
    (runAgentModel ⟨50, 3, false, true⟩ [⟨"t", TaskStatus.pending, none⟩]
        (fun _ _ => Except.error "boom")
        (fun _ _ => Except.ok defaultReflection)).status = RunStatus.failed := by
  refine ⟨by decide, by decide⟩

/-! ## C6 — reflection parse fallback -/

/-- C6: whenever no JSON verdict can be parsed from the reflection
response (no braced block, or `JSON.parse` failing on the extracted
block), `reflectOnTask` returns the default verdict — `success = true`,
`shouldRetry = false`, `confidence = 50` — and a retry-loop attempt that
receives this verdict ends the task `done` on the spot, consuming exactly
one step: the run proceeds without a retry and the reflection failure
never aborts the task. -/
theorem reflection_parse_fallback (parseJson : String → Option ReflectionResult)
    (response : String)
    (h : ∀ block, extractBraced response = some block → parseJson block = none) :
    reflectOnTask parseJson response = defaultReflection ∧
    (reflectOnTask parseJson response).success = true ∧
    (reflectOnTask parseJson response).shouldRetry = false ∧
    (reflectOnTask parseJson response).confidence = 50 ∧
    ∀ (cfg : AgentConfig) (execO : Nat → Except String String)
      (reflO : Nat → Except String ReflectionResult) (fuel retries steps : Nat)
      (res r : String),
      cfg.reflectionEnabled = true →
      execO retries = Except.ok r →
      reflO retries = Except.ok (reflectOnTask parseJson response) →
      runTaskLoop cfg execO reflO (fuel + 1) retries res steps
        = (TaskStatus.done, r, steps + 1) := by
  have hd : reflectOnTask parseJson response = defaultReflection := by
    unfold reflectOnTask
    cases hb : extractBraced response with
    | none => rfl
    | some block =>
        dsimp only
        rw [h block hb]
  refine ⟨hd, by rw [hd]; rfl, by rw [hd]; rfl, by rw [hd]; rfl, ?_⟩
  intro cfg execO reflO fuel retries steps res r hre hex hrf
  rw [hd] at hrf
  simp only [runTaskLoop, hex, hre, hrf]
  simp [defaultReflection]

/-- Witness for C6: a prose-only response with a parser that fails on
every block yields the default verdict, and the concrete retry-loop
attempt finishes `done` with one step consumed. -/
theorem reflection_parse_fallback_witness :
    reflectOnTask (fun _ => none) "the model replied in prose" = defaultReflection ∧
    runTaskLoop ⟨50, 3, false, true⟩ (fun _ => Except.ok "answer")
        (fun _ => Except.ok (reflectOnTask (fun _ => none) "the model replied in prose"))
        4 0 "" 0
      = (TaskStatus.done, "answer", 1) := by
  have h := reflection_parse_fallback (fun _ => none) "the model replied in prose"
    (fun block _ => rfl)
  exact ⟨h.1, h.2.2.2.2 ⟨50, 3, false, true⟩ _ _ 3 0 0 "" "answer" rfl rfl rfl⟩

/-! ## Tool sandbox path containment (server/agent/tools.ts lines 20-43)

Paths are modelled as strings.  `pathResolve` models Node's
`path.resolve(base, p)` for an absolute `base`: segments of `p` (or of `p`
alone when `p` is absolute) are normalized left to right, `..` popping one
segment and `.` being skipped.  `strStartsWith` models JS
`String.prototype.startsWith`.  The filesystem is an oracle
`fsys : String → Option String` mapping an absolute path to its content;
`readFileTool` consults it only after the containment check, mirroring the
source's `existsSync`/`readFileSync` calls. -/

/-- Split a character list at every occurrence of `c` (the groups keep no
separator; an empty input gives one empty group, like JS `split`). -/
def splitOnChar (c : Char) : List Char → List (List Char)
  | [] => [[]]
  | x :: xs =>
    match splitOnChar c xs with
    | [] => [[]]
    | g :: gs => if x = c then [] :: g :: gs else (x :: g) :: gs

/-- The non-empty `/`-separated segments of a path string. -/
def pathSegments (s : String) : List String :=
  (splitOnChar '/' s.toList).filterMap
    (fun g => if g.isEmpty then none else some (String.mk g))

/-- Normalize path segments: `.` is dropped, `..` pops the previous
segment (and is dropped at the root), as `path.resolve` does for absolute
paths.  `acc` holds the already-normalized segments in reverse. -/
def normalizeSegments (acc : List String) : List String → List String
  | [] => acc.reverse
  | seg :: rest =>
    if seg = "." then normalizeSegments acc rest
    else if seg = ".." then normalizeSegments acc.tail rest
    else normalizeSegments (seg :: acc) rest

/-- Whether a path string is absolute (leading `/`). -/
def isAbsolutePath (s : String) : Bool :=
  match s.toList with
  | c :: _ => c = '/'
  | [] => false

/-- Node `path.resolve(base, p)` for an absolute `base`: resolve `p` against
`base` (or alone when `p` is absolute) and normalize. -/
def pathResolve (base p : String) : String :=
  let segs :=
    if isAbsolutePath p then pathSegments p
    else pathSegments base ++ pathSegments p
  "/" ++ String.intercalate "/" (normalizeSegments [] segs)

/-- Is `pre` a leading character sequence of `s`?  Models JS
`s.startsWith(pre)`. -/
def charsLeading : List Char → List Char → Bool
  | [], _ => true
  | _ :: _, [] => false
  | a :: as, b :: bs => a = b && charsLeading as bs

/-- JS `s.startsWith(pre)`. -/
def strStartsWith (s pre : String) : Bool :=
  charsLeading pre.toList s.toList

/-- Type `ToolOutput` from server/agent/types.ts. -/
structure ToolOutput where
  success : Bool
  result : Option String
  error : Option String
deriving DecidableEq

/-- Function `readFileTool.execute` (server/agent/tools.ts lines 20-43): resolve
the argument against the workspace directory; if the resolved path does
not start with the workspace directory, return the access-denied output
without touching the filesystem; otherwise consult the filesystem
(`existsSync` / `readFileSync`, modelled by `fsys`). -/
def readFileTool (fsys : String → Option String) (workspaceDir filepath : String) :
    ToolOutput :=
  let fullPath := pathResolve workspaceDir filepath
  if ! strStartsWith fullPath workspaceDir then
    { success := false, result := none,
      error := some "Access denied: Path outside workspace" }
  else
    match fsys fullPath with
    | none =>
        { success := false, result := none,
          error := some ("File not found: " ++ filepath) }
    | some content => { success := true, result := some content, error := none }

/-- The claim's notion of containment: every normalized segment of the
workspace root leads the resolved path's segments — i.e. the resolved
path denotes a file at or below the root directory.  This follows the
specification's words ("the resolved absolute path … inside the workspace
root"), for comparison with the string-prefix test the code performs. -/
def segmentsLead : List String → List String → Bool
  | [], _ => true
  | _ :: _, [] => false
  | a :: as, b :: bs => a = b && segmentsLead as bs

/-- Directory containment of one absolute path in another, by
segments. -/
def insideWorkspace (root resolved : String) : Bool :=
  segmentsLead (normalizeSegments [] (pathSegments root))
    (normalizeSegments [] (pathSegments resolved))

/-- Counterexample for C2 as stated: with workspace root `/ws`, the
argument `../ws2/secret` resolves to `/ws2/secret` — outside the
workspace root — yet `"/ws2/secret".startsWith("/ws")` is true, so
`readFileTool` performs the read and returns the file's content instead
of an access-denied error. -/
theorem path_containment_counterexample :
    pathResolve "/ws" "../ws2/secret" = "/ws2/secret" ∧
    insideWorkspace "/ws" (pathResolve "/ws" "../ws2/secret") = false ∧
    readFileTool (fun q => if q = "/ws2/secret" then some "SECRET" else none)
        "/ws" "../ws2/secret"
      = { success := true, result := some "SECRET", error := none } := by
  refine ⟨by decide, by decide, by decide⟩

/-- C2 (amended): the sandbox rejects a `read_file` call — with the
access-denied output and without consulting the filesystem (the outcome is
the same for every filesystem) — exactly when the resolved path fails the
string-prefix test against the workspace root.  Escapes such as
`../../etc/passwd` fail that test and are rejected before any I/O; the
string-prefix test is weaker than true directory containment, as sibling
directories sharing the root as a name prefix (e.g. `/ws2` under root
`/ws`) pass it. -/
theorem path_containment_rejection (fsys : String → Option String)
    (workspaceDir filepath : String)
    (h : strStartsWith (pathResolve workspaceDir filepath) workspaceDir = false) :
    readFileTool fsys workspaceDir filepath
      = { success := false, result := none,
          error := some "Access denied: Path outside workspace" } := by
  simp only [readFileTool]
  rw [h]
  rfl

/-- Witness for C2: `read_file({path: "../../etc/passwd"})` against
workspace root `/ws` is denied even on a filesystem where every path has
content — no bytes are read. -/
theorem path_containment_rejection_witness :
    readFileTool (fun _ => some "root:x:0:0") "/ws" "../../etc/passwd"
      = { success := false, result := none,
          error := some "Access denied: Path outside workspace" } :=
  path_containment_rejection (fun _ => some "root:x:0:0") "/ws" "../../etc/passwd"
    (by decide)

/-! ## `apply_patch` (worker-variant tools.ts, `executeTool` lines 93-128) -/

/-- One `apply_patch` edit: `{startLine, endLine, newText}`, 1-based
inclusive line range. -/
structure Edit where
  startLine : Nat
  endLine : Nat
  newText : String
deriving DecidableEq

/-- Strip one trailing carriage return from a split group, so that
splitting at every newline models the source's split at `\r?\n`. -/
def stripTrailingCR (g : List Char) : List Char :=
  match g.getLast? with
  | some c => if c = '\r' then g.dropLast else g
  | none => g

/-- JS `s.split(/\r?\n/)`. -/
def splitLinesJS (s : String) : List String :=
  (splitOnChar '\n' s.toList).map (fun g => String.mk (stripTrailingCR g))

/-- The descending-`startLine` order the source sorts by
(`edits.sort((a, b) => b.startLine - a.startLine)`). -/
def editGE (a b : Edit) : Prop := b.startLine ≤ a.startLine

instance : DecidableRel editGE :=
  fun a b => inferInstanceAs (Decidable (b.startLine ≤ a.startLine))

instance : IsTotal Edit editGE := ⟨fun a b => Nat.le_total b.startLine a.startLine⟩

instance : IsTrans Edit editGE := ⟨fun _ _ _ hab hbc => le_trans hbc hab⟩

/-- Strictly descending `startLine` order (what `editGE` becomes on edits
with pairwise-distinct start lines). -/
def editGT (a b : Edit) : Prop := b.startLine < a.startLine

instance : IsAntisymm Edit editGT :=
  ⟨fun _ _ h1 h2 => absurd (lt_trans h1 h2) (lt_irrefl _)⟩

/-- The `for (const e of edits)` loop of the `apply_patch` case: check the
edit's range against the current line array (`startIdx < 0 || endIdx <
startIdx || endIdx >= lines.length` fails the whole operation), then
splice the split replacement text over lines `startLine..endLine`. -/
def applyEditsLoop : List Edit → List String → Except String (List String)
  | [], lines => Except.ok lines
  | e :: rest, lines =>
    if e.startLine = 0 ∨ e.endLine < e.startLine ∨ lines.length < e.endLine then
      Except.error ("Invalid edit range [" ++ toString e.startLine ++ ", "
        ++ toString e.endLine ++ "] (lines=" ++ toString lines.length ++ ")")
    else
      applyEditsLoop rest
        (lines.take (e.startLine - 1) ++ splitLinesJS e.newText ++ lines.drop e.endLine)

/-- The `apply_patch` operation on a file's content: split into lines,
sort the edits by descending `startLine`, apply them bottom-to-top, and
join with newlines for the single write-back. -/
def applyPatch (edits : List Edit) (original : String) : Except String String :=
  Except.map (String.intercalate "\n")
    (applyEditsLoop (List.insertionSort editGE edits) (splitLinesJS original))

/-- Line ranges of two edits do not overlap. -/
def EditDisjoint (a b : Edit) : Prop :=
  a.endLine < b.startLine ∨ b.endLine < a.startLine

instance (a b : Edit) : Decidable (EditDisjoint a b) :=
  inferInstanceAs (Decidable (_ ∨ _))

/-- Valid, pairwise-disjoint edits have pairwise-distinct start lines. -/
theorem pairwise_ne_of_disjoint :
    ∀ es : List Edit, (∀ e ∈ es, e.startLine ≤ e.endLine) →
      es.Pairwise EditDisjoint →
      es.Pairwise (fun a b => a.startLine ≠ b.startLine) := by
  intro es
  induction es with
  | nil => intro _ _; exact List.Pairwise.nil
  | cons x xs ih =>
    intro hv hp
    rcases List.pairwise_cons.mp hp with ⟨hx, hxs⟩
    refine List.pairwise_cons.mpr ⟨?_, ?_⟩
    · intro b hb
      have h1 := hv x (List.mem_cons_self x xs)
      have h2 := hv b (List.mem_cons_of_mem _ hb)
      rcases hx b hb with h | h
      · unfold EditDisjoint at *; omega
      · unfold EditDisjoint at *; omega
    · exact ih (fun e he => hv e (List.mem_cons_of_mem _ he)) hxs

/-- Sorting two permuted edit lists with pairwise-distinct start lines
gives the same list: both sorts are strictly descending in `startLine`,
and strictly sorted permutations coincide. -/
theorem insertionSort_eq_of_perm (es1 es2 : List Edit)
    (hperm : es1.Perm es2)
    (hne : es1.Pairwise (fun a b => a.startLine ≠ b.startLine)) :
    List.insertionSort editGE es1 = List.insertionSort editGE es2 := by
  have hp1 : (List.insertionSort editGE es1).Perm es1 := List.perm_insertionSort _ _
  have hp2 : (List.insertionSort editGE es2).Perm es2 := List.perm_insertionSort _ _
  have hp12 : (List.insertionSort editGE es1).Perm (List.insertionSort editGE es2) :=
    (hp1.trans hperm).trans hp2.symm
  have hsym : ∀ {a b : Edit}, a.startLine ≠ b.startLine → b.startLine ≠ a.startLine :=
    fun h => h.symm
  have hne1 : (List.insertionSort editGE es1).Pairwise
      (fun a b => a.startLine ≠ b.startLine) :=
    (hp1.pairwise_iff hsym).mpr hne
  have hne2 : (List.insertionSort editGE es2).Pairwise
      (fun a b => a.startLine ≠ b.startLine) :=
    (hp2.pairwise_iff hsym).mpr ((hperm.pairwise_iff hsym).mp hne)
  have hs1 : (List.insertionSort editGE es1).Sorted editGE :=
    List.sorted_insertionSort _ _
  have hs2 : (List.insertionSort editGE es2).Sorted editGE :=
    List.sorted_insertionSort _ _
  have hstrict1 : (List.insertionSort editGE es1).Sorted editGT := by
    have := List.Pairwise.and hs1 hne1
    exact this.imp (fun h => lt_of_le_of_ne h.1 (fun e => h.2 e.symm))
  have hstrict2 : (List.insertionSort editGE es2).Sorted editGT := by
    have := List.Pairwise.and hs2 hne2
    exact this.imp (fun h => lt_of_le_of_ne h.1 (fun e => h.2 e.symm))
  exact List.eq_of_perm_of_sorted hp12 hstrict1 hstrict2

/-- C8: on in-range, pairwise-disjoint edits, `apply_patch` produces a
final content independent of the order of the edits array, and that
content is obtained by applying the edits one at a time in descending
`startLine` order. -/
theorem apply_patch_order_independent (original : String) (es1 es2 : List Edit)
    (hperm : es1.Perm es2)
    (hdisj : es1.Pairwise EditDisjoint)
    (hin : ∀ e ∈ es1, 1 ≤ e.startLine ∧ e.startLine ≤ e.endLine ∧
      e.endLine ≤ (splitLinesJS original).length) :
    applyPatch es1 original = applyPatch es2 original ∧
    ∃ sorted, es1.Perm sorted ∧ sorted.Sorted editGE ∧
      applyPatch es1 original
        = Except.map (String.intercalate "\n")
            (applyEditsLoop sorted (splitLinesJS original)) := by
  have hne : es1.Pairwise (fun a b => a.startLine ≠ b.startLine) :=
    pairwise_ne_of_disjoint es1 (fun e he => (hin e he).2.1) hdisj
  constructor
  · unfold applyPatch
    rw [insertionSort_eq_of_perm es1 es2 hperm hne]
  · exact ⟨List.insertionSort editGE es1,
      (List.perm_insertionSort _ _).symm, List.sorted_insertionSort _ _, rfl⟩

/-- Witness for C8: the spec's own example — edits `{5,5,"X"}` and
`{2,3,"Y"}` on a 10-line file, supplied in either order — yields
byte-identical content, explicitly
`l1\nY\nl4\nX\nl6\nl7\nl8\nl9\nl10`. -/
theorem apply_patch_order_independent_witness :
    applyPatch [⟨5, 5, "X"⟩, ⟨2, 3, "Y"⟩]
        "l1\nl2\nl3\nl4\nl5\nl6\nl7\nl8\nl9\nl10"
      = applyPatch [⟨2, 3, "Y"⟩, ⟨5, 5, "X"⟩]
        "l1\nl2\nl3\nl4\nl5\nl6\nl7\nl8\nl9\nl10" ∧
    applyPatch [⟨5, 5, "X"⟩, ⟨2, 3, "Y"⟩]
        "l1\nl2\nl3\nl4\nl5\nl6\nl7\nl8\nl9\nl10"
      = Except.ok "l1\nY\nl4\nX\nl6\nl7\nl8\nl9\nl10" :=
  ⟨(apply_patch_order_independent "l1\nl2\nl3\nl4\nl5\nl6\nl7\nl8\nl9\nl10"
      [⟨5, 5, "X"⟩, ⟨2, 3, "Y"⟩] [⟨2, 3, "Y"⟩, ⟨5, 5, "X"⟩]
      (by decide) (by decide) (by decide)).1,
   by rfl⟩

/-! ## Resumption (engine.ts `resumeUnfinishedGoals`, lines 367-380) -/

/-- Field `GoalRecord.status` from memory.ts. -/
inductive GoalStatus where
  | in_progress
  | completed
  | failed
deriving DecidableEq

/-- A goal-ledger record (memory.ts `addGoal` / `PersistentMemory.goals`;
timestamps omitted). -/
structure GoalRecord where
  id : String
  goal : String
  status : GoalStatus
deriving DecidableEq

/-- The identifying fields of the `AgentState` a `runAgent` call creates
(engine.ts lines 207-222): `id = forcedId ?? generateId()` and
`autonomous = finalConfig.autonomousMode`, where the final config overlays
the caller's partial config on `DEFAULT_CONFIG` (whose `autonomousMode` is
`false`). -/
structure RunMeta where
  id : String
  goal : String
  autonomous : Bool
deriving DecidableEq

/-- The run-creation part of `runAgent` (engine.ts lines 201-222):
`generatedId` models the `generateId()` call (a timestamp-plus-random
string), `cfgAutonomousMode` the `autonomousMode` field of the partial
config argument, `forcedId` the optional fourth parameter. -/
def runAgentMeta (generatedId goal : String) (cfgAutonomousMode : Option Bool)
    (forcedId : Option String) : RunMeta :=
  { id := forcedId.getD generatedId,
    goal := goal,
    autonomous := cfgAutonomousMode.getD false }

/-- Function `getUnfinishedGoals` (memory.ts lines 395-398). -/
def getUnfinishedGoals (goals : List GoalRecord) : List GoalRecord :=
  goals.filter (fun g => decide (g.status = GoalStatus.in_progress))

/-- The `for (const goal of unfinished)` loop of `resumeUnfinishedGoals`
(engine.ts lines 373-377): each iteration calls
`runAgent(goal.goal, { autonomousMode: true }, onUpdate)` — with NO
`forcedId` argument — so run `k` gets the `k`-th freshly generated id
`gen k`. -/
def resumeLoop (gen : Nat → String) : Nat → List GoalRecord → List RunMeta
  | _, [] => []
  | k, g :: rest =>
      runAgentMeta (gen k) g.goal (some true) none :: resumeLoop gen (k + 1) rest

/-- Function `resumeUnfinishedGoals` (engine.ts lines 367-380). -/
def resumeUnfinishedGoals (gen : Nat → String) (goals : List GoalRecord) :
    List RunMeta :=
  resumeLoop gen 0 (getUnfinishedGoals goals)

/-- Counterexample for C4 as stated: resuming the single `in_progress`
GoalRecord with id `"orig"` yields a run whose id is the freshly generated
`"fresh1"` — `forcedId` is never passed, so the original Run id is NOT
reused. -/
theorem resume_id_counterexample :
    resumeUnfinishedGoals (fun _ => "fresh1")
        [⟨"orig", "finish the report", GoalStatus.in_progress⟩]
      = [⟨"fresh1", "finish the report", true⟩] ∧
    ("fresh1" : String) ≠ "orig" := by
  refine ⟨by decide, by decide⟩

/-- Unfolding of the resume loop at each index. -/
theorem resumeLoop_get? (gen : Nat → String) :
    ∀ gs k0 k r, (resumeLoop gen k0 gs).get? k = some r →
      r.autonomous = true ∧ r.id = gen (k0 + k) ∧
      ∃ g, gs.get? k = some g ∧ r.goal = g.goal := by
  intro gs
  induction gs with
  | nil => intro k0 k r hr; simp [resumeLoop] at hr
  | cons g rest ih =>
    intro k0 k r hr
    cases k with
    | zero =>
      rw [resumeLoop, List.get?_cons_zero] at hr
      have he := Option.some.inj hr
      refine ⟨by rw [← he]; rfl, by rw [← he]; rfl, g, List.get?_cons_zero,
        by rw [← he]; rfl⟩
    | succ kk =>
      rw [resumeLoop, List.get?_cons_succ] at hr
      have := ih (k0 + 1) kk r hr
      refine ⟨this.1, ?_, ?_⟩
      · rw [this.2.1]
        congr 1
        omega
      · rcases this.2.2 with ⟨g2, hg2, hgoal⟩
        exact ⟨g2, by rw [List.get?_cons_succ]; exact hg2, hgoal⟩

/-- C4 (amended): resumption re-invokes the orchestration loop once per
`in_progress` GoalRecord with `autonomous` forced to `true`, but each
resulting run carries a freshly generated id (the `k`-th generated id for
the `k`-th unfinished goal) — `runAgent`'s `forcedId` parameter is not
supplied, so the original Run id is not reused. -/
theorem resume_forces_autonomous_fresh_id (gen : Nat → String)
    (goals : List GoalRecord) (k : Nat) (r : RunMeta)
    (hr : (resumeUnfinishedGoals gen goals).get? k = some r) :
    r.autonomous = true ∧ r.id = gen k ∧
    ∃ g, (getUnfinishedGoals goals).get? k = some g ∧
      g.status = GoalStatus.in_progress ∧ r.goal = g.goal := by
  have h := resumeLoop_get? gen (getUnfinishedGoals goals) 0 k r hr
  refine ⟨h.1, by rw [h.2.1]; rw [Nat.zero_add], ?_⟩
  rcases h.2.2 with ⟨g, hg, hgoal⟩
  refine ⟨g, hg, ?_, hgoal⟩
  have hmem : g ∈ getUnfinishedGoals goals := List.get?_mem hg
  have := List.of_mem_filter hmem
  exact of_decide_eq_true this

/-- Witness for C4's amended statement: the resumed run for the concrete
`in_progress` record is autonomous and carries the generated id. -/
theorem resume_forces_autonomous_fresh_id_witness :
    (⟨"fresh1", "finish the report", true⟩ : RunMeta).autonomous = true ∧
    (⟨"fresh1", "finish the report", true⟩ : RunMeta).id
      = (fun _ : Nat => "fresh1") 0 :=
  let h := resume_forces_autonomous_fresh_id (fun _ => "fresh1")
    [⟨"orig", "finish the report", GoalStatus.in_progress⟩] 0
    ⟨"fresh1", "finish the report", true⟩ (by decide)
  ⟨h.1, h.2.1⟩

/-! ## Worker terminal event (worker.ts `startAgentWorker`, lines 20-69) -/

/-- The `status` payload of the `done` `AgentEvent`
(server/agent/events.ts): the type admits `completed`, `failed` and
`paused`. -/
inductive DoneStatus where
  | completed
  | failed
  | paused
deriving DecidableEq

/-- The worker's terminal publication (worker.ts lines 53-64): persist the
final state unchanged, then publish a `done` event whose status is
`completed` when `finalState.status === "completed"` and `failed`
otherwise. -/
def workerFinalize (finalState : RunResult) : RunResult × DoneStatus :=
  (finalState,
   if finalState.status = RunStatus.completed then DoneStatus.completed
   else DoneStatus.failed)

/-- C10: a run finishing `paused` is reported by the worker's terminal
`done` event as `failed`, never `paused`; only a `completed` final status
yields a `completed` done event, every other final status is reported
`failed`; and the persisted snapshot keeps the `paused` status. -/
theorem worker_done_event (s : RunResult) :
    (s.status = RunStatus.paused →
      (workerFinalize s).2 = DoneStatus.failed ∧
      (workerFinalize s).2 ≠ DoneStatus.paused ∧
      (workerFinalize s).1.status = RunStatus.paused) ∧
    ((workerFinalize s).2 = DoneStatus.completed ↔ s.status = RunStatus.completed) ∧
    (s.status ≠ RunStatus.completed → (workerFinalize s).2 = DoneStatus.failed) := by
  unfold workerFinalize
  refine ⟨?_, ?_, ?_⟩
  · intro hp
    rw [hp]
    refine ⟨rfl, ?_, rfl⟩
    intro hc
    simp at hc
  · constructor
    · intro hc
      by_contra hne
      rw [if_neg hne] at hc
      cases hc
    · intro hc
      rw [if_pos hc]
  · intro hne
    rw [if_neg hne]

/-- Witness for C10 at a concrete paused final state. -/
theorem worker_done_event_witness :
    (workerFinalize ⟨RunStatus.paused, [], 2⟩).2 = DoneStatus.failed ∧
    (workerFinalize ⟨RunStatus.paused, [], 2⟩).1.status = RunStatus.paused :=
  let h := (worker_done_event ⟨RunStatus.paused, [], 2⟩).1 rfl
  ⟨h.1, h.2.2⟩

end GemAssist
